import Mathlib

/-!
Verification of the caching subsystem of Gandalf.MCP.

The development shallowly embeds the two cooperating cache components:

* `MemoryCacheService` (two-tier expiring cache with LRU bounding and disk
  backing), translated from `src/unnamed/part_008` (the LRU variant, which the
  line references in the claims point at);
* `HistoricalCacheService`, translated from
  `src/src/services/historical-cache-service.ts`.

Modelling conventions:

* JS `Map` objects and the on-disk directory of JSON files are modelled as
  insertion-ordered association lists (`mapGet` / `mapSet` / `mapDelete`
  reproduce `Map.get` / `Map.set` / `Map.delete`: `mapSet` updates an existing
  key in place and appends a fresh key at the end, exactly as JS `Map.set`).
* Timestamps (`Date.now()`, `Date` values) are naturals counting milliseconds;
  each operation receives the current instant `now : Nat` explicitly.  A JS
  expression reading the clock twice inside one operation is modelled as
  reading the same `now`.
* A nullable value `T | null` is `Option α` (`none` is `null`); the JS
  conflation of "absent" and "stored null" in `get` is therefore visible in
  the model exactly as in the source.
* A caller-supplied async loader is a pure outcome: `Except ε (Option α)`
  for the general cache (it may throw), `Option α` for the historical cache.
* A file on disk is either a parseable record (`good`) or unreadable /
  unparseable content (`corrupt`, standing for anything that makes
  `JSON.parse` or `readFile` throw).  Filesystem write failures that the
  source catches are modelled by a boolean `wk` ("write ok") parameter on the
  writing operations.
* Cache keys of `MemoryCacheService` are opaque to it (the source only ever
  compares them), so they are a type parameter `κ` with decidable equality;
  the historical service pattern-matches its keys, so there they are `String`.
-/

namespace Gandalf

variable {κ : Type} [DecidableEq κ] {α : Type} {β : Type} {ε : Type}

/-- `Map.get`: first (unique) binding of `k`, if any. -/
def mapGet : List (κ × β) → κ → Option β
  | [], _ => none
  | p :: rest, k => if p.1 = k then some p.2 else mapGet rest k

/-- `Map.set`: update an existing binding in place, else append at the end. -/
def mapSet : List (κ × β) → κ → β → List (κ × β)
  | [], k, v => [(k, v)]
  | p :: rest, k, v => if p.1 = k then (k, v) :: rest else p :: mapSet rest k v

/-- `Map.delete`: remove the (first) binding of `k`. -/
def mapDelete : List (κ × β) → κ → List (κ × β)
  | [], _ => []
  | p :: rest, k => if p.1 = k then rest else p :: mapDelete rest k

@[simp] theorem mapGet_nil (k : κ) : mapGet ([] : List (κ × β)) k = none := rfl

@[simp] theorem mapGet_mapSet_self (l : List (κ × β)) (k : κ) (v : β) :
    mapGet (mapSet l k v) k = some v := by
  induction l with
  | nil => simp [mapGet, mapSet]
  | cons p rest ih =>
    by_cases h : p.1 = k <;> simp [mapGet, mapSet, h, ih]

theorem mapGet_mapSet_ne (l : List (κ × β)) (k k' : κ) (v : β) (h : k' ≠ k) :
    mapGet (mapSet l k v) k' = mapGet l k' := by
  induction l with
  | nil => simp [mapGet, mapSet, Ne.symm h]
  | cons p rest ih =>
    by_cases hp : p.1 = k
    · subst hp
      simp [mapGet, mapSet, Ne.symm h]
    · by_cases hp' : p.1 = k' <;> simp [mapGet, mapSet, hp, hp', h, ih]

theorem mapGet_eq_none_of_forall (l : List (κ × β)) (k : κ)
    (h : ∀ p ∈ l, p.1 ≠ k) : mapGet l k = none := by
  induction l with
  | nil => rfl
  | cons p rest ih =>
    have hp := h p (List.mem_cons_self p rest)
    simp only [mapGet, if_neg hp]
    exact ih fun q hq => h q (List.mem_cons_of_mem p hq)

theorem mapGet_mapDelete_self (l : List (κ × β)) (k : κ)
    (hnd : (l.map Prod.fst).Nodup) : mapGet (mapDelete l k) k = none := by
  induction l with
  | nil => rfl
  | cons p rest ih =>
    simp only [List.map_cons, List.nodup_cons] at hnd
    by_cases hp : p.1 = k
    · subst hp
      simp only [mapDelete, if_pos rfl]
      exact mapGet_eq_none_of_forall _ _ fun q hq heq =>
        hnd.1 (heq ▸ List.mem_map_of_mem Prod.fst hq)
    · simp [mapDelete, hp, mapGet, ih hnd.2]

theorem mapGet_mapDelete_of_none (l : List (κ × β)) (k k' : κ)
    (h : mapGet l k' = none) : mapGet (mapDelete l k) k' = none := by
  induction l with
  | nil => rfl
  | cons p rest ih =>
    simp only [mapGet] at h
    by_cases hp' : p.1 = k'
    · simp [hp'] at h
    · simp only [if_neg hp'] at h
      by_cases hp : p.1 = k
      · simpa [mapDelete, hp] using h
      · simp [mapDelete, hp, mapGet, hp', ih h]

theorem mapGet_mapDelete_ne (l : List (κ × β)) (k k' : κ)
    (h : k' ≠ k) : mapGet (mapDelete l k) k' = mapGet l k' := by
  induction l with
  | nil => rfl
  | cons p rest ih =>
    by_cases hp : p.1 = k
    · subst hp
      simp [mapDelete, mapGet, Ne.symm h]
    · by_cases hp' : p.1 = k' <;> simp [mapDelete, hp, mapGet, hp', h, ih]

theorem mapSet_length_of_none (l : List (κ × β)) (k : κ) (v : β)
    (h : mapGet l k = none) : (mapSet l k v).length = l.length + 1 := by
  induction l with
  | nil => rfl
  | cons p rest ih =>
    simp only [mapGet] at h
    by_cases hp : p.1 = k
    · simp [hp] at h
    · simp only [if_neg hp] at h
      simp [mapSet, hp, ih h]

theorem mapDelete_length_of_some (l : List (κ × β)) (k : κ) (v : β)
    (h : mapGet l k = some v) : (mapDelete l k).length + 1 = l.length := by
  induction l with
  | nil => simp [mapGet] at h
  | cons p rest ih =>
    simp only [mapGet] at h
    by_cases hp : p.1 = k
    · simp [mapDelete, hp]
    · simp only [if_neg hp] at h
      simp [mapDelete, hp, ih h]

/-! ## MemoryCacheService (`src/unnamed/part_008`, LRU variant) -/

/-- `LRUCacheEntry<T>`: an in-memory entry with its absolute expiry instant
and the last access instant used by LRU eviction.  `value : Option α` models
the nullable JS value. -/
structure LRUEntry (α : Type) where
  value : Option α
  expiresAt : Nat
  lastAccessed : Nat
  deriving DecidableEq, Repr

/-- `FileCacheEntry<T>`: the parsed JSON record persisted on disk
(`cachedAt` is write-only metadata). -/
structure FileEntry (α : Type) where
  value : Option α
  cachedAt : Nat
  expiresAt : Nat
  deriving DecidableEq, Repr

/-- A file of the flat disk tier: either a parseable record or content on
which `readFile`/`JSON.parse` throws. -/
inductive DiskFile (α : Type) where
  | good : FileEntry α → DiskFile α
  | corrupt : DiskFile α
  deriving DecidableEq, Repr

/-- The observable state of a `MemoryCacheService`: the memory tier
(`Map<string, LRUCacheEntry>`) and the disk tier (one `{key}.json` file per
key under the cache root). -/
structure CacheState (κ α : Type) where
  cache : List (κ × LRUEntry α)
  disk : List (κ × DiskFile α)
  deriving DecidableEq, Repr

/-- `maxCacheSize = 1000`: fixed capacity of the memory tier. -/
def maxCacheSize : Nat := 1000

/-- The loop body of `enforceCacheSize`: scan for a key whose `lastAccessed`
is strictly below the best seen so far, starting from `oldestKey = null`,
`oldestTime = Date.now()`. -/
def findOldestAux : List (κ × LRUEntry α) → Option κ → Nat → Option κ
  | [], bestK, _ => bestK
  | p :: rest, bestK, bestT =>
    if p.2.lastAccessed < bestT then findOldestAux rest (some p.1) p.2.lastAccessed
    else findOldestAux rest bestK bestT

/-- The scan of `enforceCacheSize` over all entries. -/
def findOldest (now : Nat) (cache : List (κ × LRUEntry α)) : Option κ :=
  findOldestAux cache none now

/-- `enforceCacheSize`: when the memory tier has reached `maxCacheSize`,
delete the least-recently-used entry found by the scan (if any). -/
def enforceCacheSize (now : Nat) (cache : List (κ × LRUEntry α)) :
    List (κ × LRUEntry α) :=
  if maxCacheSize ≤ cache.length then
    match findOldest now cache with
    | some k => mapDelete cache k
    | none => cache
  else cache

/-- `getFromFile`: read `{key}.json`; absent file or unparseable content is a
miss (the latter without deleting the file — the exception is caught and
`null` returned); a parsed record whose `expiresAt` has passed is unlinked
and reported as a miss.  Returns the outcome and the disk tier afterwards. -/
def getFromFile (now : Nat) (k : κ) (disk : List (κ × DiskFile α)) :
    Option (FileEntry α) × List (κ × DiskFile α) :=
  match mapGet disk k with
  | none => (none, disk)
  | some .corrupt => (none, disk)
  | some (.good fe) =>
    if fe.expiresAt ≤ now then (none, mapDelete disk k)
    else (some fe, disk)

/-- The disk half of `get`, entered after a memory miss (or after deleting an
expired memory entry): on a valid disk record with a positive whole number of
seconds remaining, reload it into memory (with its original absolute expiry
and a fresh `lastAccessed`) and return its value; otherwise a miss. -/
def getAfterMem (now : Nat) (k : κ) (st : CacheState κ α) :
    Option α × CacheState κ α :=
  match getFromFile now k st.disk with
  | (some fe, disk') =>
    if 0 < (fe.expiresAt - now) / 1000 then
      (fe.value,
        { cache := mapSet (enforceCacheSize now st.cache) k
            ⟨fe.value, fe.expiresAt, now⟩,
          disk := disk' })
    else (none, { st with disk := disk' })
  | (none, disk') => (none, { st with disk := disk' })

/-- `get`: memory tier first — an unexpired entry is returned after its
`lastAccessed` is refreshed; an expired entry is deleted and the disk tier is
consulted as for a miss. -/
def get (now : Nat) (k : κ) (st : CacheState κ α) :
    Option α × CacheState κ α :=
  match mapGet st.cache k with
  | some e =>
    if now < e.expiresAt then
      (e.value, { st with cache := mapSet st.cache k { e with lastAccessed := now } })
    else
      getAfterMem now k { st with cache := mapDelete st.cache k }
  | none => getAfterMem now k st

/-- `set`: write to the memory tier (after the capacity check) with
`expiresAt = now + ttl seconds`, and persist the record to disk; a failing
disk write (`wk = false`) is caught and logged, leaving the disk unchanged. -/
def set (wk : Bool) (now : Nat) (k : κ) (v : Option α) (ttl : Nat)
    (st : CacheState κ α) : CacheState κ α :=
  let expiresAt := now + ttl * 1000
  { cache := mapSet (enforceCacheSize now st.cache) k ⟨v, expiresAt, now⟩,
    disk := if wk then mapSet st.disk k (.good ⟨v, now, expiresAt⟩) else st.disk }

/-- `getOrSet`: return the cached value when `get` yields non-null; otherwise
run the loader and, on success, store its result via `set`.  A loader error
is not caught. -/
def getOrSet (wk : Bool) (now : Nat) (k : κ) (factory : Except ε (Option α))
    (ttl : Nat) (st : CacheState κ α) :
    Except ε (Option α) × CacheState κ α :=
  match get now k st with
  | (some v, st') => (.ok (some v), st')
  | (none, st') =>
    match factory with
    | .error e => (.error e, st')
    | .ok v => (.ok v, set wk now k v ttl st')

/-- `clear`: empty the memory tier; the disk tier is untouched. -/
def clear (st : CacheState κ α) : CacheState κ α :=
  { st with cache := [] }

/-- The per-file keep test of `cleanupExpiredFiles`: unparseable files and
records whose `expiresAt` has passed are unlinked. -/
def keepFile (now : Nat) : DiskFile α → Bool
  | .corrupt => false
  | .good fe => decide (now < fe.expiresAt)

/-- `cleanupExpiredFiles`: sweep the disk directory, unlinking every expired
or unparseable `.json` file. -/
def cleanupExpiredFiles (now : Nat) (disk : List (κ × DiskFile α)) :
    List (κ × DiskFile α) :=
  disk.filter fun p => keepFile now p.2

/-- `ensureCacheDirectory`: succeeds when the cache root already exists or
`mkdir` succeeds; otherwise rejects with the descriptive error message. -/
def ensureCacheDirectory (dirExists mkdirOk : Bool) : Except String Unit :=
  if dirExists then .ok ()
  else if mkdirOk then .ok ()
  else .error "Failed to create cache directory"

/-- The result of running the constructor: the freshly constructed (empty)
state, plus whether the directory-creation error was logged.  The source
constructor calls `ensureCacheDirectory().catch(log)`, so construction always
completes. -/
structure InitResult (κ α : Type) where
  state : CacheState κ α
  dirErrorLogged : Bool
  deriving DecidableEq, Repr

/-- The `MemoryCacheService` constructor: resolve the cache root, start from
an empty memory tier, and attempt directory creation, logging (not
propagating) any failure. -/
def construct (dirExists mkdirOk : Bool) : InitResult κ α :=
  { state := ⟨[], []⟩,
    dirErrorLogged :=
      match ensureCacheDirectory dirExists mkdirOk with
      | .ok _ => false
      | .error _ => true }

/-! ## HistoricalCacheService (`src/src/services/historical-cache-service.ts`) -/

/-- `String.prototype.includes(pat)` on explicit character lists. -/
def containsSub (pat : List Char) : List Char → Bool
  | [] => pat.isEmpty
  | c :: rest => pat.isPrefixOf (c :: rest) || containsSub pat rest

/-- `key.includes(pat)`. -/
def strContains (s pat : String) : Bool := containsSub pat.toList s.toList

/-- `key.startsWith(pat)`. -/
def strStarts (pat s : String) : Bool := pat.toList.isPrefixOf s.toList

/-- `extractDataTypeFromKey`: classify a key by its shape. -/
def extractDataTypeFromKey (key : String) : String :=
  if strContains key "_leagues_" then "leagues"
  else if strStarts "draft_" key then "drafts"
  else if strContains key "_matchups" then "matchups"
  else if strContains key "_transactions" then "transactions"
  else if strContains key "_rosters" then "rosters"
  else "general"

/-- One attempt of the season regex at the position just after a matched
underscore: exactly four digits followed by an underscore or the end of the
key (the capture group of the JS regex). -/
def fourDigitAt : List Char → Option (List Char)
  | d1 :: d2 :: d3 :: d4 :: tail =>
    if d1.isDigit && d2.isDigit && d3.isDigit && d4.isDigit &&
       (match tail with | [] => true | t :: _ => t == '_')
    then some [d1, d2, d3, d4] else none
  | _ => none

/-- Left-to-right scan of the season regex over the key. -/
def findSeasonChars : List Char → Option (List Char)
  | [] => none
  | c :: rest =>
    if c == '_' then
      match fourDigitAt rest with
      | some ds => some ds
      | none => findSeasonChars rest
    else findSeasonChars rest

/-- The season component of `extractSeasonWeekFromKey`. -/
def extractSeasonFromKey (key : String) : Option String :=
  (findSeasonChars key.toList).map String.mk

/-- `parseInt` on a nonempty run of decimal digits. -/
def digitsVal (ds : List Char) : Nat :=
  ds.foldl (fun n c => n * 10 + (c.toNat - '0'.toNat)) 0

/-- One attempt of the week regex at a position: the literal run
followed by at least one digit; the greedy capture is the maximal digit
run. -/
def weekAt (l : List Char) : Option Nat :=
  if ("week_".toList).isPrefixOf l then
    let ds := (l.drop 5).takeWhile Char.isDigit
    if ds.isEmpty then none else some (digitsVal ds)
  else none

/-- Left-to-right scan of the week regex over the key. -/
def findWeekNum : List Char → Option Nat
  | [] => none
  | c :: rest =>
    match weekAt (c :: rest) with
    | some n => some n
    | none => findWeekNum rest

/-- The week component of `extractSeasonWeekFromKey`. -/
def extractWeekFromKey (key : String) : Option Nat :=
  findWeekNum key.toList

/-- `season || 'unknown'`: a missing or empty season string selects the
`unknown` directory. -/
def seasonSeg (season : Option String) : String :=
  match season with
  | some s => if s.isEmpty then "unknown" else s
  | none => "unknown"

/-- `getFilePath` of the historical service, as the list of path components
under the process working directory (the `_week` parameter is unused, as in
the source). -/
def getFilePath (key dataType : String) (season : Option String)
    (_week : Option Nat) : List String :=
  if dataType == "leagues" then
    ["cache", "historical", "leagues", seasonSeg season, key ++ ".json"]
  else if dataType == "drafts" then
    ["cache", "historical", "drafts", key ++ ".json"]
  else if dataType == "matchups" then
    ["cache", "historical", "matchups", seasonSeg season, key ++ ".json"]
  else if dataType == "transactions" then
    ["cache", "historical", "transactions", seasonSeg season, key ++ ".json"]
  else if dataType == "rosters" then
    ["cache", "historical", "rosters", seasonSeg season, key ++ ".json"]
  else
    ["cache", "historical", key ++ ".json"]

/-- The path consulted by `getHistorical`: data type, season and week are all
re-derived from the key alone. -/
def histReadPath (key : String) : List String :=
  getFilePath key (extractDataTypeFromKey key) (extractSeasonFromKey key)
    (extractWeekFromKey key)

/-- `HistoricalCacheEntry<T>` (the `cachedAt` timestamp is write-only
metadata and is omitted). -/
structure HistEntry (α : Type) where
  value : Option α
  dataType : String
  season : Option String
  week : Option Nat
  deriving DecidableEq, Repr

/-- A file of the historical store: a parseable record or content on which
`JSON.parse` throws. -/
inductive HistFile (α : Type) where
  | good : HistEntry α → HistFile α
  | corrupt : HistFile α
  deriving DecidableEq, Repr

/-- The historical disk: one JSON file per path. -/
def HistDisk (α : Type) : Type := List (List String × HistFile α)

/-- `getHistorical`: look up the file at the key-derived path; a missing or
unparseable file is a miss (`null`), a parsed record yields its (possibly
`null`) value.  No expiry is ever checked. -/
def getHistorical (disk : HistDisk α) (key : String) : Option α :=
  match mapGet disk (histReadPath key) with
  | some (.good e) => e.value
  | some .corrupt => none
  | none => none

/-- `setHistorical`: persist a permanent record at the path chosen from the
caller-supplied `dataType` and `season`; a failing write (`wk = false`) is
caught and logged, leaving the disk unchanged. -/
def setHistorical (wk : Bool) (disk : HistDisk α) (key : String)
    (v : Option α) (dataType : String) (season : Option String)
    (week : Option Nat) : HistDisk α :=
  if wk then mapSet disk (getFilePath key dataType season week)
    (.good ⟨v, dataType, season, week⟩)
  else disk

/-- `getOrSetHistorical`: return the stored value when `getHistorical`
yields non-null; otherwise run the loader (modelled by its outcome) and
persist its result. -/
def getOrSetHistorical (wk : Bool) (disk : HistDisk α) (loader : Option α)
    (key dataType : String) (season : Option String) (week : Option Nat) :
    Option α × HistDisk α :=
  match getHistorical disk key with
  | some v => (some v, disk)
  | none => (loader, setHistorical wk disk key loader dataType season week)

/-- `SleeperNFLState`, restricted to the two fields the historical service
reads. -/
structure SleeperNFLState where
  season : String
  week : Nat
  deriving DecidableEq, Repr

/-- The JS `<` on strings: lexicographic comparison of code units, a strict
prefix ranking below its extensions. -/
def charListLt : List Char → List Char → Bool
  | [], [] => false
  | [], _ :: _ => true
  | _ :: _, [] => false
  | a :: as, b :: bs => decide (a < b) || (a == b && charListLt as bs)

/-- `season < currentSeason` as JS evaluates it. -/
def strLt (a b : String) : Bool := charListLt a.toList b.toList

/-- `isHistoricalData`, parametrised by the outcome of
`getCurrentNFLState()` (`none` when the oracle cannot supply a state).  The
JS test `week && week < currentWeek` treats a missing week and week `0`
alike as falsy. -/
def isHistoricalData (nflState : Option SleeperNFLState) (season : String)
    (week : Option Nat) : Bool :=
  match nflState with
  | none => false
  | some st =>
    if strLt season st.season then true
    else
      season == st.season &&
        (match week with
         | none => false
         | some w => !(w == 0) && decide (w < st.week))

/-! ## Helper lemmas -/

theorem mapGet_eq_of_mem (l : List (κ × β)) (k : κ) (v : β)
    (h : (k, v) ∈ l) (hnd : (l.map Prod.fst).Nodup) : mapGet l k = some v := by
  induction l with
  | nil => simp at h
  | cons p rest ih =>
    simp only [List.map_cons, List.nodup_cons] at hnd
    rcases List.mem_cons.mp h with heq | hmem
    · simp [mapGet, ← heq]
    · have hp : p.1 ≠ k := fun hk => by
        exact hnd.1 (hk ▸ List.mem_map_of_mem Prod.fst hmem)
      simp [mapGet, hp, ih hmem hnd.2]

theorem findOldestAux_const (l : List (κ × LRUEntry α)) (bk : Option κ) (t : Nat)
    (h : ∀ p ∈ l, ¬ p.2.lastAccessed < t) : findOldestAux l bk t = bk := by
  induction l generalizing bk with
  | nil => rfl
  | cons p rest ih =>
    have hp := h p (List.mem_cons_self p rest)
    simp only [findOldestAux, if_neg hp]
    exact ih bk fun q hq => h q (List.mem_cons_of_mem p hq)

theorem findOldestAux_min (l : List (κ × LRUEntry α)) (bk : Option κ) (t : Nat) :
    (findOldestAux l bk t = bk ∧ ∀ p ∈ l, t ≤ p.2.lastAccessed) ∨
    (∃ k' e', findOldestAux l bk t = some k' ∧ (k', e') ∈ l ∧
      e'.lastAccessed < t ∧ ∀ p ∈ l, e'.lastAccessed ≤ p.2.lastAccessed) := by
  induction l generalizing bk t with
  | nil => exact Or.inl ⟨rfl, by simp⟩
  | cons p rest ih =>
    by_cases hp : p.2.lastAccessed < t
    · simp only [findOldestAux, if_pos hp]
      rcases ih (some p.1) p.2.lastAccessed with ⟨hres, hall⟩ | ⟨k', e', hres, hmem, hlt, hmin⟩
      · refine Or.inr ⟨p.1, p.2, hres, List.mem_cons_self p rest, hp, ?_⟩
        intro q hq
        rcases List.mem_cons.mp hq with heq | hmem
        · subst heq; exact le_refl _
        · exact hall q hmem
      · refine Or.inr ⟨k', e', hres, List.mem_cons_of_mem p hmem, lt_trans hlt hp, ?_⟩
        intro q hq
        rcases List.mem_cons.mp hq with heq | hmem'
        · subst heq; exact le_of_lt hlt
        · exact hmin q hmem'
    · simp only [findOldestAux, if_neg hp]
      rcases ih bk t with ⟨hres, hall⟩ | ⟨k', e', hres, hmem, hlt, hmin⟩
      · refine Or.inl ⟨hres, ?_⟩
        intro q hq
        rcases List.mem_cons.mp hq with heq | hmem
        · subst heq; omega
        · exact hall q hmem
      · refine Or.inr ⟨k', e', hres, List.mem_cons_of_mem p hmem, hlt, ?_⟩
        intro q hq
        rcases List.mem_cons.mp hq with heq | hmem'
        · subst heq; omega
        · exact hmin q hmem'

/-- If both tiers hold at most a null value for `k`, `get` reports `null`,
indistinguishable from an absent key. -/
theorem get_value_none (now : Nat) (k : κ) (st : CacheState κ α)
    (hm : ∀ e, mapGet st.cache k = some e → e.value = none)
    (hd : ∀ fe, mapGet st.disk k = some (.good fe) → fe.value = none) :
    (get now k st).1 = none := by
  have hdisk : ∀ st' : CacheState κ α, st'.disk = st.disk →
      (getAfterMem now k st').1 = none := by
    intro st' hdeq
    cases hdd : mapGet st.disk k with
    | none => simp [getAfterMem, getFromFile, hdeq, hdd]
    | some df =>
      cases df with
      | corrupt => simp [getAfterMem, getFromFile, hdeq, hdd]
      | good fe =>
        have hv := hd fe hdd
        by_cases hexp : fe.expiresAt ≤ now
        · simp [getAfterMem, getFromFile, hdeq, hdd, hexp]
        · by_cases hrem : 0 < (fe.expiresAt - now) / 1000 <;>
            simp [getAfterMem, getFromFile, hdeq, hdd, hexp, hrem, hv]
  cases hc : mapGet st.cache k with
  | none => simpa [get, hc] using hdisk st rfl
  | some e =>
    have hv := hm e hc
    by_cases hexp : now < e.expiresAt
    · simp [get, hc, hexp, hv]
    · simpa [get, hc, hexp] using
        hdisk { st with cache := mapDelete st.cache k } rfl

/-- A binding that the sweep predicate rejects is gone after the sweep. -/
theorem mapGet_cleanup_none (now : Nat) (disk : List (κ × DiskFile α)) (k : κ)
    (df : DiskFile α) (h : mapGet disk k = some df) (hk : keepFile now df = false)
    (hnd : (disk.map Prod.fst).Nodup) :
    mapGet (cleanupExpiredFiles now disk) k = none := by
  induction disk with
  | nil => simp [mapGet] at h
  | cons p rest ih =>
    simp only [List.map_cons, List.nodup_cons] at hnd
    simp only [mapGet] at h
    by_cases hp : p.1 = k
    · simp only [if_pos hp] at h
      have hdf : p.2 = df := Option.some.inj h
      have hpk : keepFile now p.2 = false := by rw [hdf]; exact hk
      simp only [cleanupExpiredFiles, List.filter_cons, hpk, Bool.false_eq_true,
        if_false]
      exact mapGet_eq_none_of_forall _ _ fun q hq hqk => hnd.1 (by
        rw [hp, ← hqk]
        exact List.mem_map_of_mem Prod.fst (List.mem_of_mem_filter hq))
    · simp only [if_neg hp] at h
      have := ih h hnd.2
      by_cases hkeep : keepFile now p.2
      · simpa [cleanupExpiredFiles, List.filter_cons, hkeep, mapGet, hp]
          using this
      · simp only [Bool.not_eq_true] at hkeep
        simpa [cleanupExpiredFiles, List.filter_cons, hkeep] using this

theorem charListLt_irrefl (l : List Char) : charListLt l l = false := by
  induction l with
  | nil => rfl
  | cons a as ih => simp [charListLt, ih]

theorem strLt_irrefl (s : String) : strLt s s = false :=
  charListLt_irrefl s.toList

/-! ## Claim theorems -/

/-- C2: `isHistoricalData(s, w)` returns true if `s` is strictly below the
oracle's current season; when `s` equals the current season it returns true
only when `w` is supplied and strictly below the current week; and when the
oracle cannot supply a current state it returns false. -/
theorem c2_isHistoricalData_classification (st : Option SleeperNFLState)
    (s : String) (w : Option Nat) :
    (∀ cur, st = some cur → strLt s cur.season = true →
      isHistoricalData st s w = true) ∧
    (∀ cur, st = some cur → s = cur.season → isHistoricalData st s w = true →
      ∃ n, w = some n ∧ n < cur.week) ∧
    (st = none → isHistoricalData st s w = false) := by
  refine ⟨?_, ?_, ?_⟩
  · rintro cur rfl hlt
    simp [isHistoricalData, hlt]
  · rintro cur rfl rfl hres
    simp only [isHistoricalData, strLt_irrefl, Bool.false_eq_true,
      if_false] at hres
    cases w with
    | none => simp at hres
    | some n =>
      simp only [Bool.and_eq_true, beq_iff_eq, Bool.not_eq_true',
        decide_eq_true_eq, beq_eq_false_iff_ne] at hres
      exact ⟨n, rfl, hres.2.2⟩
  · rintro rfl
    rfl

/-- C2 witness: the spec's concrete classification examples, plus the
only-when direction at `week = 5` against current week `10`. -/
theorem c2_witness :
    isHistoricalData (some ⟨"2024", 10⟩) "2023" none = true ∧
    (∃ n, (some 5 : Option Nat) = some n ∧ n < 10) ∧
    isHistoricalData none "2024" (some 5) = false := by
  refine ⟨?_, ?_, ?_⟩
  · exact (c2_isHistoricalData_classification (some ⟨"2024", 10⟩) "2023" none).1
      ⟨"2024", 10⟩ rfl (by decide)
  · exact (c2_isHistoricalData_classification
      (some ⟨"2024", 10⟩) "2024" (some 5)).2.1 ⟨"2024", 10⟩ rfl rfl (by decide)
  · exact (c2_isHistoricalData_classification none "2024" (some 5)).2.2 rfl

/-- C7 counterexample: with the cache root missing and `mkdir` failing, the
constructor still completes normally — it returns the initialised (empty)
service with the directory error merely logged, refuting "construction of
the cache does not complete normally". -/
theorem c7_counterexample :
    (construct false false : InitResult Nat Nat) =
      { state := ⟨[], []⟩, dirErrorLogged := true } := by
  decide

/-- C7 amended: a directory-creation failure at construction is caught and
logged (construction completes with an empty cache in every case), while
per-operation filesystem failures are never fatal: a `set` whose disk write
fails still stores the entry in memory and leaves the disk unchanged. -/
theorem c7_init_errors_swallowed :
    (∀ de mk : Bool, (construct de mk : InitResult κ α).state = ⟨[], []⟩ ∧
      ((construct de mk : InitResult κ α).dirErrorLogged = true ↔
        de = false ∧ mk = false)) ∧
    (∀ (now ttl : Nat) (k : κ) (v : Option α) (st : CacheState κ α),
      (set false now k v ttl st).disk = st.disk ∧
      mapGet (set false now k v ttl st).cache k =
        some ⟨v, now + ttl * 1000, now⟩) := by
  constructor
  · intro de mk
    cases de <;> cases mk <;> simp [construct, ensureCacheDirectory]
  · intro now ttl k v st
    exact ⟨rfl, by simp [set]⟩

/-- C8 counterexample: with an expired memory entry for the key, `getOrSet`
with a throwing loader propagates the error but does not leave the state
unchanged — the expired entry has been erased by the embedded `get`. -/
theorem c8_counterexample :
    (getOrSet true 100 1 (Except.error "boom") 60
        (⟨[(1, ⟨some 5, 100, 0⟩)], []⟩ : CacheState Nat Nat)).1 =
      Except.error "boom" ∧
    (getOrSet true 100 1 (Except.error "boom") 60
        (⟨[(1, ⟨some 5, 100, 0⟩)], []⟩ : CacheState Nat Nat)).2.cache ≠
      (⟨[(1, ⟨some 5, 100, 0⟩)], []⟩ : CacheState Nat Nat).cache :=
  ⟨rfl, by decide⟩

/-- C8 amended: a loader error surfaces from `getOrSet` unchanged whenever
the loader runs (that is, whenever the lookup misses), `set` is never
reached, and the state after the failed call is exactly the state after the
embedded `get` — so the only mutations are those of the read path (expired
entries erased, expired disk records deleted, disk values promoted), never a
write of a new entry. -/
theorem c8_loader_error_propagated (wk : Bool) (now ttl : Nat) (k : κ)
    (e : ε) (st : CacheState κ α) :
    (getOrSet wk now k (Except.error e) ttl st).2 = (get now k st).2 ∧
    ((get now k st).1 = none →
      (getOrSet wk now k (Except.error e) ttl st).1 = Except.error e) ∧
    (∀ v, (get now k st).1 = some v →
      (getOrSet wk now k (Except.error e) ttl st).1 = Except.ok (some v)) := by
  refine ⟨?_, ?_, ?_⟩ <;>
    · simp only [getOrSet]
      rcases hg : get now k st with ⟨r, st'⟩
      cases r <;> simp_all

/-- C8 witness: at an empty cache the loader runs and its error surfaces. -/
theorem c8_witness :
    (getOrSet true 0 1 (Except.error "boom") 60
        (⟨[], []⟩ : CacheState Nat Nat)).1 = Except.error "boom" :=
  (c8_loader_error_propagated true 0 60 1 "boom" ⟨[], []⟩).2.1 (by decide)

/-- C9 counterexample: a disk record with 500 ms of TTL left is not
retrievable after `clear` — the reload path demands a positive whole number
of remaining seconds — refuting "entries remain retrievable from disk after
a clear until their own TTLs lapse" (the record does stay on disk). -/
theorem c9_counterexample :
    (get 1000 1 (clear
        (⟨[(1, ⟨some 5, 1500, 0⟩)], [(1, .good ⟨some 5, 0, 1500⟩)]⟩ :
          CacheState Nat Nat))).1 = none ∧
    mapGet ((get 1000 1 (clear
        (⟨[(1, ⟨some 5, 1500, 0⟩)], [(1, .good ⟨some 5, 0, 1500⟩)]⟩ :
          CacheState Nat Nat))).2).disk 1 = some (.good ⟨some 5, 0, 1500⟩) := by
  decide

/-- C9 amended: `clear` empties the memory tier and touches nothing else —
the disk tier is preserved verbatim — and a cleared entry is again
retrievable from disk as long as at least one full second remains before its
expiry (in the final sub-second the reload path reports a miss while leaving
the record on disk). -/
theorem c9_clear_preserves_disk (st : CacheState κ α) :
    (clear st).cache = [] ∧ (clear st).disk = st.disk ∧
    (∀ (now : Nat) (k : κ) (fe : FileEntry α),
      mapGet st.disk k = some (.good fe) → now + 1000 ≤ fe.expiresAt →
      (get now k (clear st)).1 = fe.value) := by
  refine ⟨rfl, rfl, ?_⟩
  intro now k fe hd hrem
  have hne : ¬ fe.expiresAt ≤ now := by omega
  have hdiv : 0 < (fe.expiresAt - now) / 1000 :=
    Nat.div_pos (by omega) (by norm_num)
  simp [get, clear, getAfterMem, getFromFile, mapGet, hd, hne, hdiv]

/-- C9 witness: a concrete cleared cache still serves the disk record. -/
theorem c9_witness :
    (get 0 1 (clear (⟨[(1, ⟨some 9, 5000, 0⟩)],
        [(1, .good ⟨some 5, 0, 5000⟩)]⟩ : CacheState Nat Nat))).1 = some 5 :=
  (c9_clear_preserves_disk ⟨[(1, ⟨some 9, 5000, 0⟩)],
      [(1, .good ⟨some 5, 0, 5000⟩)]⟩).2.2 0 1 ⟨some 5, 0, 5000⟩
    (by decide) (by decide)

/-- C4: an expired memory entry is never returned — `get` behaves exactly as
if it were absent (erasing it); an expired disk record reached by the read
path is deleted and reported absent; and the sweep likewise unlinks expired
disk records. -/
theorem c4_expired_never_returned (now : Nat) (k : κ) (st : CacheState κ α) :
    (∀ e, mapGet st.cache k = some e → e.expiresAt ≤ now →
      (st.cache.map Prod.fst).Nodup →
      get now k st = get now k { st with cache := mapDelete st.cache k }) ∧
    (∀ fe, (∀ e, mapGet st.cache k = some e → e.expiresAt ≤ now) →
      mapGet st.disk k = some (.good fe) → fe.expiresAt ≤ now →
      (st.disk.map Prod.fst).Nodup →
      (get now k st).1 = none ∧ mapGet ((get now k st).2).disk k = none) ∧
    (∀ fe, mapGet st.disk k = some (.good fe) → fe.expiresAt ≤ now →
      (st.disk.map Prod.fst).Nodup →
      mapGet (cleanupExpiredFiles now st.disk) k = none) := by
  refine ⟨?_, ?_, ?_⟩
  · intro e hc he hnd
    have hlt : ¬ now < e.expiresAt := by omega
    have hdel : mapGet (mapDelete st.cache k) k = none :=
      mapGet_mapDelete_self _ _ hnd
    simp [get, hc, hlt, hdel]
  · intro fe hm hd hfe hnd
    have hgaf : ∀ st' : CacheState κ α, st'.disk = st.disk →
        getAfterMem now k st' = (none, { st' with disk := mapDelete st.disk k }) := by
      intro st' hd'
      simp [getAfterMem, getFromFile, hd', hd, hfe]
    have hdel : mapGet (mapDelete st.disk k) k = none :=
      mapGet_mapDelete_self _ _ hnd
    cases hc : mapGet st.cache k with
    | none => simp [get, hc, hgaf st rfl, hdel]
    | some e =>
      have hlt : ¬ now < e.expiresAt := by
        have := hm e hc; omega
      simp [get, hc, hlt,
        hgaf { st with cache := mapDelete st.cache k } rfl, hdel]
  · intro fe hd hfe hnd
    refine mapGet_cleanup_none now st.disk k (.good fe) hd ?_ hnd
    simp only [keepFile, decide_eq_false_iff_not]
    omega

/-- C4 witness: a state holding an entry for key `1` expired both in memory
and on disk at instant `100`. -/
theorem c4_witness :
    (get 100 1 (⟨[(1, ⟨some 5, 100, 0⟩)], [(1, .good ⟨some 5, 0, 100⟩)]⟩ :
        CacheState Nat Nat)).1 = none ∧
    mapGet ((get 100 1 (⟨[(1, ⟨some 5, 100, 0⟩)],
        [(1, .good ⟨some 5, 0, 100⟩)]⟩ : CacheState Nat Nat)).2).disk 1 = none ∧
    mapGet (cleanupExpiredFiles 100
        ([(1, .good ⟨some 5, 0, 100⟩)] : List (Nat × DiskFile Nat))) 1 = none := by
  have h := c4_expired_never_returned 100 1
    (⟨[(1, ⟨some 5, 100, 0⟩)], [(1, .good ⟨some 5, 0, 100⟩)]⟩ : CacheState Nat Nat)
  have hm : ∀ e : LRUEntry Nat,
      mapGet [(1, (⟨some 5, 100, 0⟩ : LRUEntry Nat))] 1 = some e →
      e.expiresAt ≤ 100 := by
    intro e he
    have he' : some (⟨some 5, 100, 0⟩ : LRUEntry Nat) = some e := he
    cases he'
    decide
  have h2 := h.2.1 ⟨some 5, 0, 100⟩ hm (by decide) (by decide) (by decide)
  exact ⟨h2.1, h2.2, h.2.2 ⟨some 5, 0, 100⟩ (by decide) (by decide) (by decide)⟩

/-- C6 counterexample: a corrupt disk record for key `1` read at instant `0`
yields a miss but is NOT deleted by the read — refuting "the corrupt file,
once identified during a read ..., is deleted from disk". -/
theorem c6_counterexample :
    (get 0 1 (⟨[], [(1, .corrupt)]⟩ : CacheState Nat Nat)).1 = none ∧
    mapGet ((get 0 1 (⟨[], [(1, .corrupt)]⟩ :
        CacheState Nat Nat)).2).disk 1 = some .corrupt := by
  decide

/-- C6 amended: a read of a corrupt disk record is a cache miss that leaves
the disk tier untouched (the caught parse error does not unlink the file);
the periodic sweep is what deletes corrupt files. -/
theorem c6_corrupt_read_miss_sweep_deletes (now : Nat) (k : κ)
    (st : CacheState κ α) :
    ((∀ e, mapGet st.cache k = some e → e.expiresAt ≤ now) →
      mapGet st.disk k = some .corrupt →
      (get now k st).1 = none ∧ ((get now k st).2).disk = st.disk) ∧
    (∀ disk : List (κ × DiskFile α), mapGet disk k = some .corrupt →
      (disk.map Prod.fst).Nodup →
      mapGet (cleanupExpiredFiles now disk) k = none) := by
  constructor
  · intro hm hd
    have hgaf : ∀ st' : CacheState κ α, st'.disk = st.disk →
        getAfterMem now k st' = (none, st') := by
      intro st' hd'
      simp only [getAfterMem, getFromFile, hd', hd]
      rw [← hd']
    cases hc : mapGet st.cache k with
    | none => simp [get, hc, hgaf st rfl]
    | some e =>
      have hlt : ¬ now < e.expiresAt := by
        have := hm e hc; omega
      simp [get, hc, hlt,
        hgaf { st with cache := mapDelete st.cache k } rfl]
  · intro disk hd hnd
    exact mapGet_cleanup_none now disk k .corrupt hd rfl hnd

/-- C6 witness: a corrupt file beside a live one; the read misses and leaves
it, the sweep removes it. -/
theorem c6_witness :
    (get 3 7 (⟨[], [(7, .corrupt), (8, .good ⟨some 2, 0, 9000⟩)]⟩ :
        CacheState Nat Nat)).1 = none ∧
    ((get 3 7 (⟨[], [(7, .corrupt), (8, .good ⟨some 2, 0, 9000⟩)]⟩ :
        CacheState Nat Nat)).2).disk = [(7, .corrupt), (8, .good ⟨some 2, 0, 9000⟩)] ∧
    mapGet (cleanupExpiredFiles 3
        ([(7, .corrupt), (8, .good ⟨some 2, 0, 9000⟩)] :
          List (Nat × DiskFile Nat))) 7 = none := by
  have h := c6_corrupt_read_miss_sweep_deletes 3 7
    (⟨[], [(7, .corrupt), (8, .good ⟨some 2, 0, 9000⟩)]⟩ : CacheState Nat Nat)
  have h1 := h.1 (by intro e he; simp [mapGet] at he) (by decide)
  exact ⟨h1.1, h1.2, h.2 [(7, .corrupt), (8, .good ⟨some 2, 0, 9000⟩)]
    (by decide) (by decide)⟩

/-- C3: `set` then an immediate `get` returns the stored value; and after a
restart (fresh empty memory tier over the same disk), `get` returns the
value from disk, reloaded with the original absolute expiry — the remaining
TTL, never a fresh full one. -/
theorem c3_roundtrip_and_restart (st : CacheState κ α) (k : κ) (v : Option α)
    (ttl now now2 : Nat) (h1 : 0 < ttl)
    (h2 : now2 + 1000 ≤ now + ttl * 1000) :
    (get now k (set true now k v ttl st)).1 = v ∧
    (get now2 k ⟨[], (set true now k v ttl st).disk⟩).1 = v ∧
    mapGet ((get now2 k (⟨[], (set true now k v ttl st).disk⟩ :
        CacheState κ α)).2).cache k = some ⟨v, now + ttl * 1000, now2⟩ := by
  have hexp : now < now + ttl * 1000 := by omega
  have hne : ¬ (now + ttl * 1000 ≤ now2) := by omega
  have hdiv : 0 < (now + ttl * 1000 - now2) / 1000 :=
    Nat.div_pos (by omega) (by norm_num)
  refine ⟨?_, ?_, ?_⟩
  · simp [get, set, mapGet_mapSet_self, hexp]
  · simp [get, set, getAfterMem, getFromFile, mapGet, mapGet_mapSet_self,
      hne, hdiv]
  · simp [get, set, getAfterMem, getFromFile, mapGet, mapGet_mapSet_self,
      hne, hdiv, enforceCacheSize, maxCacheSize]

/-- C3 witness: store `42` for 60 seconds at instant 0, restart, read back at
instant 5000 with 55 s left. -/
theorem c3_witness :
    (get 0 1 (set true 0 1 (some 42) 60 (⟨[], []⟩ : CacheState Nat Nat))).1 =
      some 42 ∧
    (get 5000 1 ⟨[], (set true 0 1 (some 42) 60
        (⟨[], []⟩ : CacheState Nat Nat)).disk⟩).1 = some 42 ∧
    mapGet ((get 5000 1 (⟨[], (set true 0 1 (some 42) 60
        (⟨[], []⟩ : CacheState Nat Nat)).disk⟩ :
        CacheState Nat Nat)).2).cache 1 = some ⟨some 42, 0 + 60 * 1000, 5000⟩ :=
  c3_roundtrip_and_restart ⟨[], []⟩ 1 (some 42) 60 0 5000 (by decide) (by decide)

/-- A `set` of a null value leaves both tiers null-valued at the key, so any
later `get` reports null again. -/
theorem get_after_set_none (now now2 ttl : Nat) (k : κ) (st : CacheState κ α) :
    (get now2 k (set true now k (none : Option α) ttl st)).1 = none := by
  apply get_value_none
  · intro e he
    simp only [set] at he
    rw [mapGet_mapSet_self] at he
    cases he
    rfl
  · intro fe hfe
    rw [show (set true now k (none : Option α) ttl st).disk =
        mapSet st.disk k (DiskFile.good ⟨none, now, now + ttl * 1000⟩) from rfl,
      mapGet_mapSet_self] at hfe
    have h2 : (⟨none, now, now + ttl * 1000⟩ : FileEntry α) = fe :=
      DiskFile.good.inj (Option.some.inj hfe)
    rw [← h2]

/-- C10: a stored null value is indistinguishable from an absent key — `get`
reports null either way — so `getOrSet` with a null-returning loader runs the
loader again on the next call instead of memoizing, and likewise
`getOrSetHistorical` persists a null record that its next lookup again treats
as a miss. -/
theorem c10_null_never_memoized (now now2 ttl : Nat) (k : κ)
    (st : CacheState κ α) (hdisk : HistDisk α) (key dt : String)
    (season : Option String) (week : Option Nat) :
    ((∀ e, mapGet st.cache k = some e → e.value = none) →
     (∀ fe, mapGet st.disk k = some (.good fe) → fe.value = none) →
      (get now k st).1 = none ∧
      (getOrSet true now k (Except.ok (none : Option α) : Except Unit (Option α))
          ttl st).1 = Except.ok none ∧
      (get now2 k (getOrSet true now k
          (Except.ok (none : Option α) : Except Unit (Option α)) ttl st).2).1 =
        none) ∧
    (mapGet st.cache k = none → mapGet st.disk k = none →
      (get now k st).1 = none) ∧
    ((∀ e2, mapGet hdisk (histReadPath key) = some (.good e2) → e2.value = none) →
      getHistorical hdisk key = none ∧
      getHistorical
        (getOrSetHistorical true hdisk none key dt season week).2 key = none) := by
  refine ⟨?_, ?_, ?_⟩
  · intro hm hd
    have hg := get_value_none now k st hm hd
    rcases hE : get now k st with ⟨r, st'⟩
    have hr : r = none := by rw [hE] at hg; exact hg
    subst hr
    refine ⟨rfl, ?_, ?_⟩
    · simp [getOrSet, hE]
    · simp only [getOrSet, hE]
      exact get_after_set_none now now2 ttl k st'
  · intro hm hd
    exact get_value_none now k st
      (fun e he => absurd he (by simp [hm]))
      (fun fe hfe => absurd hfe (by simp [hd]))
  · intro hd2
    have hga : getHistorical hdisk key = none := by
      cases hh : mapGet hdisk (histReadPath key) with
      | none => simp [getHistorical, hh]
      | some hf =>
        cases hf with
        | corrupt => simp [getHistorical, hh]
        | good e2 => simp [getHistorical, hh, hd2 e2 hh]
    refine ⟨hga, ?_⟩
    simp only [getOrSetHistorical, hga]
    by_cases hpq : histReadPath key = getFilePath key dt season week
    · simp [getHistorical, setHistorical, hpq, mapGet_mapSet_self]
    · have hsetd : setHistorical true hdisk key (none : Option α) dt season week =
          mapSet hdisk (getFilePath key dt season week)
            (HistFile.good ⟨none, dt, season, week⟩) := rfl
      have heq : getHistorical
          (setHistorical true hdisk key none dt season week) key =
          getHistorical hdisk key := by
        simp only [getHistorical, hsetd]
        rw [mapGet_mapSet_ne _ _ _ _ hpq]
      rw [heq]
      exact hga

/-- C10 witness: empty tiers for key `1` and a fresh historical store with
the spec's own argument shape. -/
theorem c10_witness :
    (get 0 1 (⟨[], []⟩ : CacheState Nat Nat)).1 = none ∧
    (getOrSet true 0 1 (Except.ok (none : Option Nat) : Except Unit (Option Nat))
        60 (⟨[], []⟩ : CacheState Nat Nat)).1 = Except.ok none ∧
    (get 7 1 (getOrSet true 0 1
        (Except.ok (none : Option Nat) : Except Unit (Option Nat)) 60
        (⟨[], []⟩ : CacheState Nat Nat)).2).1 = none ∧
    getHistorical ([] : HistDisk Nat) "k" = none ∧
    getHistorical (getOrSetHistorical true ([] : HistDisk Nat) none "k"
        "matchups" (some "2022") (some 3)).2 "k" = none := by
  have h := c10_null_never_memoized 0 7 60 1 (⟨[], []⟩ : CacheState Nat Nat)
    ([] : HistDisk Nat) "k" "matchups" (some "2022") (some 3)
  have h1 := h.1 (by intro e he; simp [mapGet] at he)
    (by intro fe hfe; simp [mapGet] at hfe)
  have h3 := h.2.2 (by intro e2 he2; simp [mapGet] at he2)
  exact ⟨h1.1, h1.2.1, h1.2.2, h3.1, h3.2⟩

/-- A memory tier completely filled at the current instant: every entry's
`lastAccessed` equals `now = 5`. -/
def fullCache : List (Nat × LRUEntry Nat) :=
  (List.range maxCacheSize).map fun i => (i, ⟨some 0, 1000000000, 5⟩)

/-- C5 counterexample: with the tier at its fixed capacity but every entry
last accessed at the current millisecond, inserting a new key removes
nothing — the scan starts from `oldestTime = Date.now()` and compares
strictly, finds no entry, and the tier grows to 1001 — refuting "removes
exactly one entry". -/
theorem c5_counterexample :
    (set true 5 maxCacheSize (some 7) 60
        (⟨fullCache, []⟩ : CacheState Nat Nat)).cache.length =
      maxCacheSize + 1 := by
  have hall : ∀ p ∈ fullCache, ¬ p.2.lastAccessed < 5 := by
    intro p hp
    rcases List.mem_map.mp hp with ⟨i, _, hi⟩
    rw [← hi]
    show ¬ (5 : Nat) < 5
    omega
  have hnone : findOldest 5 fullCache = none :=
    findOldestAux_const fullCache none 5 hall
  have hlen : fullCache.length = maxCacheSize := by
    simp [fullCache]
  have hnew : mapGet fullCache maxCacheSize = none := by
    refine mapGet_eq_none_of_forall _ _ fun p hp => ?_
    rcases List.mem_map.mp hp with ⟨i, hi, hieq⟩
    have hi' := List.mem_range.mp hi
    rw [← hieq]
    show i ≠ maxCacheSize
    omega
  have henf : enforceCacheSize 5 fullCache = fullCache := by
    simp [enforceCacheSize, hlen, hnone]
  simp only [set, henf]
  rw [mapSet_length_of_none _ _ _ hnew, hlen]

/-- C5 amended: when the tier is at capacity and at least one entry was last
accessed strictly before the current instant, inserting a new key evicts
exactly one entry — one whose `lastAccessed` is minimal over the whole tier —
the size stays at capacity, and the evicted key's disk record is untouched. -/
theorem c5_lru_eviction (now ttl : Nat) (k : κ) (v : Option α)
    (st : CacheState κ α)
    (hcap : st.cache.length = maxCacheSize)
    (hnew : mapGet st.cache k = none)
    (hnd : (st.cache.map Prod.fst).Nodup)
    (hold : ∃ p ∈ st.cache, p.2.lastAccessed < now) :
    ∃ k' e', (k', e') ∈ st.cache ∧
      (∀ p ∈ st.cache, e'.lastAccessed ≤ p.2.lastAccessed) ∧
      (set true now k v ttl st).cache =
        mapSet (mapDelete st.cache k') k ⟨v, now + ttl * 1000, now⟩ ∧
      (set true now k v ttl st).cache.length = maxCacheSize ∧
      mapGet (set true now k v ttl st).disk k' = mapGet st.disk k' := by
  rcases findOldestAux_min st.cache none now with ⟨_, hall⟩ | hmin
  · rcases hold with ⟨p, hp, hlt⟩
    exact absurd (hall p hp) (by omega)
  rcases hmin with ⟨k', e', hres, hmem, _, hminle⟩
  have henf : enforceCacheSize now st.cache = mapDelete st.cache k' := by
    simp [enforceCacheSize, hcap, findOldest, hres]
  have hget' : mapGet st.cache k' = some e' :=
    mapGet_eq_of_mem st.cache k' e' hmem hnd
  have hk'ne : k' ≠ k := by
    intro hkk
    rw [hkk, hnew] at hget'
    cases hget'
  have hdelnone : mapGet (mapDelete st.cache k') k = none :=
    mapGet_mapDelete_of_none _ _ _ hnew
  refine ⟨k', e', hmem, hminle, ?_, ?_, ?_⟩
  · simp [set, henf]
  · simp only [set, henf]
    rw [mapSet_length_of_none _ _ _ hdelnone,
      mapDelete_length_of_some _ _ e' hget', hcap]
  · rw [show (set true now k v ttl st).disk =
        mapSet st.disk k (DiskFile.good ⟨v, now, now + ttl * 1000⟩) from rfl,
      mapGet_mapSet_ne _ _ _ _ hk'ne]

/-- A memory tier at capacity in which key `0` was last accessed at instant
`0` and every other key at instant `5`. -/
def bigCache : List (Nat × LRUEntry Nat) :=
  (List.range maxCacheSize).map fun i =>
    (i, ⟨some 0, 1000000000, if i = 0 then 0 else 5⟩)

set_option maxRecDepth 100000 in
/-- C5 witness: at instant 5, inserting key 1000 into the full tier evicts
the stale key 0 and leaves its (absent) disk record alone. -/
theorem c5_witness :
    ∃ k' e', (k', e') ∈ bigCache ∧
      (∀ p ∈ bigCache, e'.lastAccessed ≤ p.2.lastAccessed) ∧
      (set true 5 maxCacheSize (some 7) 60
          (⟨bigCache, []⟩ : CacheState Nat Nat)).cache =
        mapSet (mapDelete bigCache k') maxCacheSize ⟨some 7, 5 + 60 * 1000, 5⟩ ∧
      (set true 5 maxCacheSize (some 7) 60
          (⟨bigCache, []⟩ : CacheState Nat Nat)).cache.length = maxCacheSize ∧
      mapGet (set true 5 maxCacheSize (some 7) 60
          (⟨bigCache, []⟩ : CacheState Nat Nat)).disk k' =
        mapGet ([] : List (Nat × DiskFile Nat)) k' := by
  have hcap : bigCache.length = maxCacheSize := by simp [bigCache]
  have hnew : mapGet bigCache maxCacheSize = none := by
    refine mapGet_eq_none_of_forall _ _ fun p hp => ?_
    rcases List.mem_map.mp hp with ⟨i, hi, hieq⟩
    have hi' := List.mem_range.mp hi
    rw [← hieq]
    show i ≠ maxCacheSize
    omega
  have hnd : (bigCache.map Prod.fst).Nodup := by
    have hfst : bigCache.map Prod.fst = List.range maxCacheSize := by
      simp [bigCache, Function.comp_def]
    rw [hfst]
    exact List.nodup_range _
  have hold : ∃ p ∈ bigCache, p.2.lastAccessed < 5 := by
    refine ⟨(0, ⟨some 0, 1000000000, 0⟩), ?_, by decide⟩
    have h0 : ((0 : Nat), (⟨some 0, 1000000000, 0⟩ : LRUEntry Nat)) =
        (fun i => ((i, ⟨some 0, 1000000000, if i = 0 then 0 else 5⟩) :
          Nat × LRUEntry Nat)) 0 := by
      norm_num
    rw [h0]
    exact List.mem_map_of_mem _ (List.mem_range.mpr (by norm_num [maxCacheSize]))
  exact c5_lru_eviction 5 60 maxCacheSize (some 7) ⟨bigCache, []⟩
    hcap hnew hnd hold

/-- C1 counterexample: `getOrSetHistorical("k", loader, "matchups", "2022",
3)` writes the record under `historical/matchups/2022/k.json` but the read
path of the very next call re-derives type `general` from the key and looks
at `historical/k.json` — both lookups miss, so the loader runs on both calls,
refuting "the loader is invoked exactly once". -/
theorem c1_counterexample :
    getHistorical ([] : HistDisk Nat) "k" = none ∧
    getHistorical
      (getOrSetHistorical true ([] : HistDisk Nat) (some 7) "k" "matchups"
        (some "2022") (some 3)).2 "k" = none := by
  constructor
  · rfl
  · decide

/-- When `getHistorical` hits, `getOrSetHistorical` returns the stored value
and leaves the store untouched, whatever its loader would produce. -/
theorem getOrSetHistorical_hit (wk : Bool) (disk : HistDisk α)
    (loader : Option α) (key dt : String) (season : Option String)
    (week : Option Nat) (v : α) (h : getHistorical disk key = some v) :
    getOrSetHistorical wk disk loader key dt season week = (some v, disk) := by
  simp [getOrSetHistorical, h]

/-- C1 amended: for a key whose key-derived read path coincides with the
write path chosen from the explicit parameters (for example a key embedding
its data type and season), and a loader returning a non-null value, the
second call finds the record written by the first — the loader runs exactly
once, and the stored value is returned with no expiry check whatsoever (the
historical read path consults no clock). -/
theorem c1_historical_permanence (disk : HistDisk α) (key dt : String)
    (season : Option String) (week : Option Nat) (v : α)
    (hpath : histReadPath key = getFilePath key dt season week)
    (hmiss : mapGet disk (histReadPath key) = none) :
    getHistorical disk key = none ∧
    (getOrSetHistorical true disk (some v) key dt season week).1 = some v ∧
    getHistorical (getOrSetHistorical true disk (some v) key dt season week).2
      key = some v ∧
    (∀ l2 : Option α, getOrSetHistorical true
        (getOrSetHistorical true disk (some v) key dt season week).2 l2
        key dt season week =
      (some v, (getOrSetHistorical true disk (some v) key dt season week).2)) := by
  have hga : getHistorical disk key = none := by
    simp [getHistorical, hmiss]
  have hst1 : (getOrSetHistorical true disk (some v) key dt season week).2 =
      mapSet disk (getFilePath key dt season week)
        (HistFile.good ⟨some v, dt, season, week⟩) := by
    simp [getOrSetHistorical, hga, setHistorical]
  have hga2 : getHistorical
      (getOrSetHistorical true disk (some v) key dt season week).2 key =
      some v := by
    rw [hst1]
    simp [getHistorical, hpath, mapGet_mapSet_self]
  refine ⟨hga, ?_, hga2, ?_⟩
  · simp [getOrSetHistorical, hga]
  · intro l2
    exact getOrSetHistorical_hit true _ l2 key dt season week v hga2

/-- C1 witness: the key `league_1_2022_week_3_matchups` classifies back to
`matchups`/season `2022`, so the read path matches the write path and the
second call returns the first loader's value. -/
theorem c1_witness :
    getHistorical ([] : HistDisk Nat) "league_1_2022_week_3_matchups" = none ∧
    (getOrSetHistorical true ([] : HistDisk Nat) (some 7)
        "league_1_2022_week_3_matchups" "matchups" (some "2022") (some 3)).1 =
      some 7 ∧
    getHistorical (getOrSetHistorical true ([] : HistDisk Nat) (some 7)
        "league_1_2022_week_3_matchups" "matchups" (some "2022") (some 3)).2
      "league_1_2022_week_3_matchups" = some 7 ∧
    (∀ l2 : Option Nat, getOrSetHistorical true
        (getOrSetHistorical true ([] : HistDisk Nat) (some 7)
          "league_1_2022_week_3_matchups" "matchups" (some "2022") (some 3)).2
        l2 "league_1_2022_week_3_matchups" "matchups" (some "2022") (some 3) =
      (some 7, (getOrSetHistorical true ([] : HistDisk Nat) (some 7)
        "league_1_2022_week_3_matchups" "matchups" (some "2022") (some 3)).2)) :=
  c1_historical_permanence [] "league_1_2022_week_3_matchups" "matchups"
    (some "2022") (some 3) 7 (by decide) rfl

end Gandalf
